import Mathlib

set_option maxRecDepth 10000

/-!
Verification of the 3D point-cloud registration engine of this repository
(`src/2021/day19`: `vector.rs`, `matrix.rs`, `main.rs`), shallowly embedded.
Hash-based containers (`HashSet`, `HashMap`) are modelled as lists with
membership-checking insertion; their iteration order, arbitrary in the
source, is determinized to insertion order.
-/

namespace Day19

/-- `Vector` (vector.rs lines 4-9): three signed integer coordinates. -/
structure Vector where
  x : Int
  y : Int
  z : Int
deriving DecidableEq, Repr

instance : Add Vector :=
  ⟨fun a b => ⟨a.x + b.x, a.y + b.y, a.z + b.z⟩⟩

instance : Sub Vector :=
  ⟨fun a b => ⟨a.x - b.x, a.y - b.y, a.z - b.z⟩⟩

/-- `Vector::abs` (vector.rs lines 13-15): the Manhattan norm. -/
def Vector.abs (v : Vector) : Int :=
  |v.x| + |v.y| + |v.z|

/-- `Matrix` (matrix.rs lines 4-11): a 3x3 matrix of signed integers,
its rows as a triple of triples. -/
structure Matrix where
  entries : (Int × Int × Int) × (Int × Int × Int) × (Int × Int × Int)
deriving DecidableEq, Repr

/-- `Default for Matrix` (matrix.rs lines 71-75): the identity matrix. -/
def Matrix.default : Matrix :=
  ⟨((1, 0, 0), (0, 1, 0), (0, 0, 1))⟩

/-- `Matrix::roll` (matrix.rs lines 50-57). -/
def Matrix.roll : Matrix :=
  ⟨((1, 0, 0), (0, 0, -1), (0, 1, 0))⟩

/-- `Matrix::turn` (matrix.rs lines 59-66). -/
def Matrix.turn : Matrix :=
  ⟨((0, 1, 0), (-1, 0, 0), (0, 0, 1))⟩

/-- `Mul<Vector> for Matrix` (matrix.rs lines 91-102): matrix times column
vector. -/
def Matrix.mulVec (m : Matrix) (v : Vector) : Vector :=
  let a := m.entries.1
  let b := m.entries.2.1
  let c := m.entries.2.2
  ⟨a.1 * v.x + a.2.1 * v.y + a.2.2 * v.z,
   b.1 * v.x + b.2.1 * v.y + b.2.2 * v.z,
   c.1 * v.x + c.2.1 * v.y + c.2.2 * v.z⟩

instance : HMul Matrix Vector Vector :=
  ⟨Matrix.mulVec⟩

/-- `Mul for Matrix` (matrix.rs lines 105-124): matrix product. -/
def Matrix.mulMat (m k : Matrix) : Matrix :=
  let a := m.entries.1
  let b := m.entries.2.1
  let c := m.entries.2.2
  let d := k.entries.1
  let e := k.entries.2.1
  let f := k.entries.2.2
  ⟨((a.1 * d.1 + a.2.1 * e.1 + a.2.2 * f.1,
     a.1 * d.2.1 + a.2.1 * e.2.1 + a.2.2 * f.2.1,
     a.1 * d.2.2 + a.2.1 * e.2.2 + a.2.2 * f.2.2),
    (b.1 * d.1 + b.2.1 * e.1 + b.2.2 * f.1,
     b.1 * d.2.1 + b.2.1 * e.2.1 + b.2.2 * f.2.1,
     b.1 * d.2.2 + b.2.1 * e.2.2 + b.2.2 * f.2.2),
    (c.1 * d.1 + c.2.1 * e.1 + c.2.2 * f.1,
     c.1 * d.2.1 + c.2.1 * e.2.1 + c.2.2 * f.2.1,
     c.1 * d.2.2 + c.2.1 * e.2.2 + c.2.2 * f.2.2))⟩

instance : Mul Matrix :=
  ⟨Matrix.mulMat⟩

/-- The transpose of a matrix (not in the source; used to state the
transpose-inverse property of the rotation group). -/
def Matrix.transpose (m : Matrix) : Matrix :=
  let a := m.entries.1
  let b := m.entries.2.1
  let c := m.entries.2.2
  ⟨((a.1, b.1, c.1), (a.2.1, b.2.1, c.2.1), (a.2.2, b.2.2, c.2.2))⟩

theorem Matrix.mul_def (m k : Matrix) : m * k = Matrix.mulMat m k := rfl

theorem Matrix.mulVec_def (m : Matrix) (v : Vector) : m * v = Matrix.mulVec m v := rfl

/-- `RotationWalk` iterator state (matrix.rs lines 126-130). -/
structure RotationWalk where
  swap : Bool
  step : Nat
deriving DecidableEq, Repr

/-- `Iterator for RotationWalk::next` (matrix.rs lines 133-160): the item
yielded and the successor state, or `none` when exhausted. -/
def RotationWalk.next (s : RotationWalk) : Option (Matrix × RotationWalk) :=
  if s.step ≥ 12 then
    if s.swap then none
    else some (Matrix.roll * Matrix.roll * Matrix.turn * Matrix.roll, ⟨true, 1⟩)
  else
    some (if s.step % 4 = 0 then Matrix.roll else Matrix.turn, ⟨s.swap, s.step + 1⟩)

/-- Collect the iterator's items, fuel-bounded (the walk yields 24 items,
so any fuel of at least 25 collects them all). -/
def RotationWalk.collect : Nat → RotationWalk → List Matrix
  | 0, _ => []
  | n + 1, s =>
    match s.next with
    | none => []
    | some (m, s2) => m :: RotationWalk.collect n s2

/-- `Matrix::rotation_walk()` (matrix.rs lines 46-48) as the list of
matrices the iterator yields, in order. -/
def rotationWalk : List Matrix :=
  RotationWalk.collect 32 ⟨false, 0⟩

/-- The running products `a = r * a` that every consumer of the walk forms
(`Vector::rotates_into`, vector.rs lines 17-27, and the
`there_are_24_rotations` test), starting from the identity. -/
def cumulProducts : List Matrix → Matrix → List Matrix
  | [], _ => []
  | r :: rest, a => (r * a) :: cumulProducts rest (r * a)

/-- The rotation group as the source enumerates it: the 24 running products
of the rotation walk. -/
def rotations : List Matrix :=
  cumulProducts rotationWalk Matrix.default

/-- The search loop of `Vector::rotates_into` (vector.rs lines 17-27),
over the remaining walk items with the running product `a`. -/
def rotatesIntoAux (w v : Vector) : List Matrix → Matrix → Option Matrix
  | [], _ => none
  | r :: rest, a =>
    if v = (r * a) * w then some (r * a) else rotatesIntoAux w v rest (r * a)

/-- `Vector::rotates_into(&self, other)` (vector.rs lines 17-27): the first
enumerated rotation mapping `w` onto `v`, if any. -/
def Vector.rotates_into (w v : Vector) : Option Matrix :=
  rotatesIntoAux w v rotationWalk Matrix.default

theorem rotatesIntoAux_spec (w v : Vector) :
    ∀ (l : List Matrix) (a m : Matrix), rotatesIntoAux w v l a = some m →
      m ∈ cumulProducts l a ∧ v = m * w := by
  intro l
  induction l with
  | nil => intro a m h; simp [rotatesIntoAux] at h
  | cons r rest ih =>
    intro a m h
    rw [rotatesIntoAux] at h
    split at h
    · obtain rfl : r * a = m := by injection h
      exact ⟨by simp [cumulProducts], by assumption⟩
    · obtain ⟨h1, h2⟩ := ih (r * a) m h
      exact ⟨by simp [cumulProducts, h1], h2⟩

/-- If `rotates_into` answers `some m`, then `m` is one of the 24 enumerated
rotations and maps `w` exactly onto `v`. -/
theorem rotates_into_spec (w v : Vector) (m : Matrix)
    (h : Vector.rotates_into w v = some m) : m ∈ rotations ∧ v = m * w :=
  rotatesIntoAux_spec w v rotationWalk Matrix.default m h

/-- The 24 rotations of the walk, written out as literal matrices
(`rotations_eq_listed` proves this list is exactly `rotations`). -/
def rotationsListed : List Matrix :=
  [⟨((1, 0, 0), (0, 0, -1), (0, 1, 0))⟩, ⟨((0, 0, -1), (-1, 0, 0), (0, 1, 0))⟩,
   ⟨((-1, 0, 0), (0, 0, 1), (0, 1, 0))⟩, ⟨((0, 0, 1), (1, 0, 0), (0, 1, 0))⟩,
   ⟨((0, 0, 1), (0, -1, 0), (1, 0, 0))⟩, ⟨((0, -1, 0), (0, 0, -1), (1, 0, 0))⟩,
   ⟨((0, 0, -1), (0, 1, 0), (1, 0, 0))⟩, ⟨((0, 1, 0), (0, 0, 1), (1, 0, 0))⟩,
   ⟨((0, 1, 0), (-1, 0, 0), (0, 0, 1))⟩, ⟨((-1, 0, 0), (0, -1, 0), (0, 0, 1))⟩,
   ⟨((0, -1, 0), (1, 0, 0), (0, 0, 1))⟩, ⟨((1, 0, 0), (0, 1, 0), (0, 0, 1))⟩,
   ⟨((0, 0, -1), (1, 0, 0), (0, -1, 0))⟩, ⟨((1, 0, 0), (0, 0, 1), (0, -1, 0))⟩,
   ⟨((0, 0, 1), (-1, 0, 0), (0, -1, 0))⟩, ⟨((-1, 0, 0), (0, 0, -1), (0, -1, 0))⟩,
   ⟨((-1, 0, 0), (0, 1, 0), (0, 0, -1))⟩, ⟨((0, 1, 0), (1, 0, 0), (0, 0, -1))⟩,
   ⟨((1, 0, 0), (0, -1, 0), (0, 0, -1))⟩, ⟨((0, -1, 0), (-1, 0, 0), (0, 0, -1))⟩,
   ⟨((0, -1, 0), (0, 0, 1), (-1, 0, 0))⟩, ⟨((0, 0, 1), (0, 1, 0), (-1, 0, 0))⟩,
   ⟨((0, 1, 0), (0, 0, -1), (-1, 0, 0))⟩, ⟨((0, 0, -1), (0, -1, 0), (-1, 0, 0))⟩]

theorem rotations_eq_listed : rotations = rotationsListed := by
  simp only [rotations, rotationWalk, RotationWalk.collect, RotationWalk.next,
    cumulProducts, Matrix.mul_def, Matrix.mulMat, Matrix.roll, Matrix.turn, Matrix.default,
    rotationsListed]
  norm_num

set_option maxHeartbeats 2000000 in
/-- C3: the rotation enumeration yields exactly 24 distinct matrices
including the identity; the set is closed under composition, and every
member's transpose is a member and a right inverse. -/
theorem claim_c3 :
    rotations.length = 24 ∧ rotations.Nodup ∧ Matrix.default ∈ rotations ∧
    (∀ a ∈ rotations, ∀ b ∈ rotations, a * b ∈ rotations) ∧
    (∀ a ∈ rotations, a.transpose ∈ rotations ∧ a * a.transpose = Matrix.default) := by
  rw [rotations_eq_listed]
  exact ⟨rfl, by decide, by decide, by decide, by decide⟩

/-- Squared Euclidean distance between two points (the metric of the spec's
distance-invariance property; not itself a function of the source). -/
def sqDist (p q : Vector) : Int :=
  (p.x - q.x) ^ 2 + (p.y - q.y) ^ 2 + (p.z - q.z) ^ 2

set_option maxHeartbeats 2000000 in
/-- C8: every enumerated rotation preserves squared Euclidean distances. -/
theorem claim_c8 (R : Matrix) (hR : R ∈ rotations) (p q : Vector) :
    sqDist (R * p) (R * q) = sqDist p q := by
  rw [rotations_eq_listed] at hR
  obtain ⟨px, py, pz⟩ := p
  obtain ⟨qx, qy, qz⟩ := q
  fin_cases hR <;> simp [sqDist, Matrix.mulVec_def, Matrix.mulVec] <;> ring

theorem claim_c8_witness :
    sqDist (Matrix.roll * Vector.mk 1 2 3) (Matrix.roll * Vector.mk 4 5 6) =
      sqDist ⟨1, 2, 3⟩ ⟨4, 5, 6⟩ :=
  claim_c8 Matrix.roll (by rw [rotations_eq_listed]; decide) ⟨1, 2, 3⟩ ⟨4, 5, 6⟩

set_option maxHeartbeats 2000000 in
/-- C10: every enumerated rotation preserves the Manhattan norm
`Vector::abs`, so the pairwise distances used as edge-index keys are
rotation-invariant. -/
theorem claim_c10 (R : Matrix) (hR : R ∈ rotations) (v : Vector) :
    (R * v).abs = v.abs := by
  rw [rotations_eq_listed] at hR
  obtain ⟨x, y, z⟩ := v
  fin_cases hR <;> simp [Matrix.mulVec_def, Matrix.mulVec, Vector.abs, abs_neg] <;> ring

theorem claim_c10_witness :
    (Matrix.turn * Vector.mk 3 (-4) 5).abs = (Vector.mk 3 (-4) 5).abs :=
  claim_c10 Matrix.turn (by rw [rotations_eq_listed]; decide) ⟨3, -4, 5⟩

/-- `Transformation(Matrix, Vector)` (main.rs line 15): a rotation and a
translation. -/
structure Transformation where
  m : Matrix
  t : Vector
deriving DecidableEq, Repr

/-- The edge index of a scan: `HashMap<isize, HashSet<(Vector, Vector)>>`
modelled as an association list keyed by distance, each class a list of
ordered point pairs. -/
abbrev Edges : Type :=
  List (Int × List (Vector × Vector))

/-- `Scan` (main.rs lines 18-22). -/
structure Scan where
  blips : List Vector
  edges : Edges
  transformation : Option Transformation
deriving DecidableEq, Repr

/-- `Error` (main.rs lines 26-31). -/
inductive Error where
  | InvalidPoint : String → Error
  | MissingArgument : Error
  | EmptyInput : Error
  | InputFileNotFound : Error
deriving DecidableEq, Repr

/-- `HashSet<(Vector, Vector)>::insert`: add the pair unless present. -/
def pairInsert (l : List (Vector × Vector)) (p : Vector × Vector) :
    List (Vector × Vector) :=
  if p ∈ l then l else l ++ [p]

/-- The edge-index update of `refresh_edges` (main.rs lines 40-43): create
the distance class if missing, then insert the pair into it. -/
def edgesInsert : Edges → Int → (Vector × Vector) → Edges
  | [], d, p => [(d, [p])]
  | (d2, l) :: rest, d, p =>
    if d2 = d then (d2, pairInsert l p) :: rest
    else (d2, l) :: edgesInsert rest d p

/-- `HashMap::get` on the edge index, defaulting to the empty class. -/
def edgesLookup : Edges → Int → List (Vector × Vector)
  | [], _ => []
  | (d2, l) :: rest, d => if d2 = d then l else edgesLookup rest d

/-- The ordered pairs of distinct points the double loop of
`refresh_edges` (main.rs lines 36-38) visits. -/
def orderedPairs (l : List Vector) : List (Vector × Vector) :=
  l.flatMap fun v => l.flatMap fun w => if v = w then [] else [(v, w)]

/-- The edge insertions `refresh_edges` performs over a pair list. -/
def refreshFold (e : Edges) (ps : List (Vector × Vector)) : Edges :=
  ps.foldl (fun e2 p => edgesInsert e2 ((p.2 - p.1).abs) p) e

/-- `Scan::refresh_edges` (main.rs lines 35-46). -/
def Scan.refresh_edges (s : Scan) : Scan :=
  { s with edges := refreshFold s.edges (orderedPairs s.blips) }

/-- `From<HashSet<Vector>> for Scan` (main.rs lines 50-57). -/
def Scan.fromBlips (blips : List Vector) : Scan :=
  Scan.refresh_edges { blips := blips, edges := [], transformation := none }

/-- `HashSet<Vector>::insert`: add the point unless present. -/
def insertVec (l : List Vector) (v : Vector) : List Vector :=
  if v ∈ l then l else l ++ [v]

/-- Insert every point of `h` (the `for_each` of main.rs line 81). -/
def insertAll (l h : List Vector) : List Vector :=
  h.foldl insertVec l

/-- The merge performed on alignment success (main.rs lines 81-82): union
the mapped points into the point set, then refresh the edge index. -/
def Scan.merge (s : Scan) (h : List Vector) : Scan :=
  Scan.refresh_edges { s with blips := insertAll s.blips h }

/-- `MINIMUM_OVERLAP_FOR_ALIGNMENT` (main.rs line 11). -/
def MINIMUM_OVERLAP_FOR_ALIGNMENT : Nat := 12

/-- The shared distances of `align` (main.rs lines 63-65): keys present in
both edge indices. -/
def sharedDistances (self them : Scan) : List Int :=
  (self.edges.map Prod.fst).filter fun d => decide (d ∈ them.edges.map Prod.fst)

/-- The sort of `align` (main.rs lines 66-70): shared distances ordered by
the size of the distance class in `self` (the reference cloud). -/
def sharedSorted (self them : Scan) : List Int :=
  List.insertionSort
    (fun d1 d2 => (edgesLookup self.edges d1).length ≤ (edgesLookup self.edges d2).length)
    (sharedDistances self them)

/-- The triple loop of `align` (main.rs lines 71-73), flattened: every
(distance, reference pair, candidate pair) combination in search order. -/
def alignCandidates (self them : Scan) :
    List (Int × (Vector × Vector) × (Vector × Vector)) :=
  (sharedSorted self them).flatMap fun d =>
    (edgesLookup self.edges d).flatMap fun p =>
      (edgesLookup them.edges d).map fun q => (d, p, q)

/-- The body of the search loop (main.rs lines 74-87): try one combination,
answering the transformation when the overlap reaches the threshold. -/
def tryCombo (selfBlips themBlips : List Vector)
    (c : Int × (Vector × Vector) × (Vector × Vector)) : Option Transformation :=
  let v1 := c.2.1.1
  let v2 := c.2.1.2
  let w1 := c.2.2.1
  let w2 := c.2.2.2
  match Vector.rotates_into (w2 - w1) (v2 - v1) with
  | none => none
  | some a =>
    let t := v1 - a * w1
    let h := themBlips.map fun w => a * w + t
    let n := (selfBlips.filter fun b => decide (b ∈ h)).length
    if MINIMUM_OVERLAP_FOR_ALIGNMENT ≤ n then some ⟨a, t⟩ else none

/-- First-success search over the combinations (the early `return` of
main.rs line 85). -/
def searchCombos (f : Int × (Vector × Vector) × (Vector × Vector) → Option Transformation) :
    List (Int × (Vector × Vector) × (Vector × Vector)) → Option Transformation
  | [] => none
  | c :: rest =>
    match f c with
    | some T => some T
    | none => searchCombos f rest

/-- `Scan::align` (main.rs lines 62-92): the updated `self` and `them` (both
are behind `&mut` in the source) and the returned transformation. -/
def Scan.align (self them : Scan) : Scan × Scan × Option Transformation :=
  match searchCombos (tryCombo self.blips them.blips) (alignCandidates self them) with
  | none => (self, them, none)
  | some T =>
    (Scan.merge self (them.blips.map fun w => T.m * w + T.t),
     { them with transformation := some T },
     some T)

/-- One full pass of the registration loop (main.rs lines 139-147): fold
over the pending list, aligning every scan without a transformation against
the growing core; answers the new core, the updated scan list, the updated
scanner positions and the `done` flag the pass computes. -/
def passStep (core : Scan) (scans : List Scan) (scanners : List Vector) :
    Scan × List Scan × List Vector × Bool :=
  match scans with
  | [] => (core, [], scanners, true)
  | s :: rest =>
    if s.transformation.isNone then
      let a := Scan.align core s
      let scanners2 :=
        match a.2.2 with
        | some T => scanners ++ [T.t]
        | none => scanners
      let p := passStep a.1 rest scanners2
      (p.1, a.2.1 :: p.2.1, p.2.2.1, false)
    else
      let p := passStep core rest scanners
      (p.1, s :: p.2.1, p.2.2.1, p.2.2.2)

/-- The `while !done` loop of `main_or_error` (main.rs lines 138-148),
fuel-bounded: `none` means the fuel ran out with the loop still running. -/
def runLoop : Nat → Scan → List Scan → List Vector →
    Option (Scan × List Scan × List Vector)
  | 0, _, _, _ => none
  | n + 1, core, scans, scanners =>
    let p := passStep core scans scanners
    if p.2.2.2 then some (p.1, p.2.1, p.2.2.1) else runLoop n p.1 p.2.1 p.2.2.1

theorem mem_pairInsert (l : List (Vector × Vector)) (p q : Vector × Vector) :
    q ∈ pairInsert l p ↔ q ∈ l ∨ q = p := by
  unfold pairInsert
  split
  · constructor
    · exact fun h => Or.inl h
    · rintro (h | rfl)
      · exact h
      · assumption
  · simp

theorem pairInsert_of_mem (l : List (Vector × Vector)) (p : Vector × Vector)
    (h : p ∈ l) : pairInsert l p = l := by
  unfold pairInsert
  exact if_pos h

theorem mem_edgesLookup_insert_self (e : Edges) (d : Int) (p : Vector × Vector) :
    p ∈ edgesLookup (edgesInsert e d p) d := by
  induction e with
  | nil => simp [edgesInsert, edgesLookup]
  | cons en rest ih =>
    obtain ⟨d2, l⟩ := en
    by_cases hd : d2 = d
    · subst hd
      simp [edgesInsert, edgesLookup, mem_pairInsert]
    · simp [edgesInsert, edgesLookup, hd, ih]

theorem mem_edgesLookup_insert_mono (e : Edges) (d2 : Int) (p2 : Vector × Vector)
    (d : Int) (q : Vector × Vector) (h : q ∈ edgesLookup e d) :
    q ∈ edgesLookup (edgesInsert e d2 p2) d := by
  induction e with
  | nil => simp [edgesLookup] at h
  | cons en rest ih =>
    obtain ⟨d3, l⟩ := en
    by_cases h3 : d3 = d2
    · subst h3
      rw [edgesLookup] at h
      by_cases h4 : d3 = d
      · simp [edgesInsert, edgesLookup, h4, mem_pairInsert]
        rw [if_pos h4] at h
        exact Or.inl h
      · rw [if_neg h4] at h
        simp [edgesInsert, edgesLookup, h4, h]
    · rw [edgesLookup] at h
      by_cases h4 : d3 = d
      · rw [if_pos h4] at h
        subst h4
        simp [edgesInsert, edgesLookup, h3, h]
      · rw [if_neg h4] at h
        simp [edgesInsert, edgesLookup, h3, h4, ih h]

theorem mem_edgesLookup_insert_cases (e : Edges) (d2 : Int) (p2 : Vector × Vector)
    (d : Int) (q : Vector × Vector) (h : q ∈ edgesLookup (edgesInsert e d2 p2) d) :
    q ∈ edgesLookup e d ∨ (d = d2 ∧ q = p2) := by
  induction e with
  | nil =>
    rw [edgesInsert, edgesLookup] at h
    split at h
    · simp at h
      rename_i hd
      exact Or.inr ⟨hd.symm, h⟩
    · simp [edgesLookup] at h
  | cons en rest ih =>
    obtain ⟨d3, l⟩ := en
    by_cases h3 : d3 = d2
    · subst h3
      rw [edgesInsert, if_pos rfl, edgesLookup] at h
      by_cases h4 : d3 = d
      · rw [if_pos h4] at h
        rw [mem_pairInsert] at h
        rcases h with h | rfl
        · exact Or.inl (by rw [edgesLookup, if_pos h4]; exact h)
        · exact Or.inr ⟨h4 ▸ rfl, rfl⟩
      · rw [if_neg h4] at h
        exact Or.inl (by rw [edgesLookup, if_neg h4]; exact h)
    · rw [edgesInsert, if_neg h3, edgesLookup] at h
      by_cases h4 : d3 = d
      · rw [if_pos h4] at h
        exact Or.inl (by rw [edgesLookup, if_pos h4]; exact h)
      · rw [if_neg h4] at h
        rcases ih h with h2 | h2
        · exact Or.inl (by rw [edgesLookup, if_neg h4]; exact h2)
        · exact Or.inr h2

theorem edgesInsert_of_mem (e : Edges) (d : Int) (p : Vector × Vector)
    (h : p ∈ edgesLookup e d) : edgesInsert e d p = e := by
  induction e with
  | nil => simp [edgesLookup] at h
  | cons en rest ih =>
    obtain ⟨d2, l⟩ := en
    rw [edgesLookup] at h
    by_cases h2 : d2 = d
    · rw [if_pos h2] at h
      rw [edgesInsert, if_pos h2, pairInsert_of_mem l p h]
    · rw [if_neg h2] at h
      rw [edgesInsert, if_neg h2, ih h]

theorem mem_refreshFold_mono (ps : List (Vector × Vector)) :
    ∀ (e : Edges) (d : Int) (q : Vector × Vector),
      q ∈ edgesLookup e d → q ∈ edgesLookup (refreshFold e ps) d := by
  induction ps with
  | nil => intro e d q h; exact h
  | cons p rest ih =>
    intro e d q h
    rw [refreshFold, List.foldl_cons]
    exact ih _ d q (mem_edgesLookup_insert_mono e _ p d q h)

theorem mem_refreshFold_self (ps : List (Vector × Vector)) :
    ∀ (e : Edges) (p : Vector × Vector), p ∈ ps →
      p ∈ edgesLookup (refreshFold e ps) ((p.2 - p.1).abs) := by
  induction ps with
  | nil => intro e p h; simp at h
  | cons p2 rest ih =>
    intro e p h
    rw [refreshFold, List.foldl_cons]
    rcases List.mem_cons.mp h with rfl | h2
    · exact mem_refreshFold_mono rest _ _ p (mem_edgesLookup_insert_self e _ p)
    · exact ih _ p h2

theorem mem_refreshFold_cases (ps : List (Vector × Vector)) :
    ∀ (e : Edges) (d : Int) (q : Vector × Vector),
      q ∈ edgesLookup (refreshFold e ps) d →
      q ∈ edgesLookup e d ∨ (q ∈ ps ∧ d = (q.2 - q.1).abs) := by
  induction ps with
  | nil => intro e d q h; exact Or.inl h
  | cons p rest ih =>
    intro e d q h
    rw [refreshFold, List.foldl_cons] at h
    rcases ih _ d q h with h2 | h2
    · rcases mem_edgesLookup_insert_cases e _ p d q h2 with h3 | ⟨h3, rfl⟩
      · exact Or.inl h3
      · exact Or.inr ⟨List.mem_cons_self _ _, h3⟩
    · exact Or.inr ⟨List.mem_cons_of_mem p h2.1, h2.2⟩

theorem refreshFold_of_complete (ps : List (Vector × Vector)) :
    ∀ (e : Edges), (∀ p ∈ ps, p ∈ edgesLookup e ((p.2 - p.1).abs)) →
      refreshFold e ps = e := by
  induction ps with
  | nil => intro e _; rfl
  | cons p rest ih =>
    intro e h
    rw [refreshFold, List.foldl_cons,
      edgesInsert_of_mem e _ p (h p (List.mem_cons_self p rest))]
    exact ih e fun q hq => h q (List.mem_cons_of_mem p hq)

theorem mem_orderedPairs (l : List Vector) (p : Vector × Vector) :
    p ∈ orderedPairs l ↔ p.1 ∈ l ∧ p.2 ∈ l ∧ p.1 ≠ p.2 := by
  unfold orderedPairs
  simp only [List.mem_flatMap]
  constructor
  · rintro ⟨v, hv, w, hw, hp⟩
    split at hp
    · simp at hp
    · rename_i hne
      simp at hp
      subst hp
      exact ⟨hv, hw, hne⟩
  · rintro ⟨h1, h2, h3⟩
    exact ⟨p.1, h1, p.2, h2, by rw [if_neg h3]; simp⟩

theorem mem_insertVec (l : List Vector) (v a : Vector) :
    a ∈ insertVec l v ↔ a ∈ l ∨ a = v := by
  unfold insertVec
  split
  · constructor
    · exact fun h => Or.inl h
    · rintro (h | rfl)
      · exact h
      · assumption
  · simp

theorem insertVec_of_mem (l : List Vector) (v : Vector) (h : v ∈ l) :
    insertVec l v = l := by
  unfold insertVec
  exact if_pos h

theorem mem_insertAll_left (h : List Vector) :
    ∀ (l : List Vector) (a : Vector), a ∈ l → a ∈ insertAll l h := by
  induction h with
  | nil => intro l a ha; exact ha
  | cons b rest ih =>
    intro l a ha
    rw [insertAll, List.foldl_cons]
    exact ih _ a ((mem_insertVec l b a).mpr (Or.inl ha))

theorem mem_insertAll_right (h : List Vector) :
    ∀ (l : List Vector) (a : Vector), a ∈ h → a ∈ insertAll l h := by
  induction h with
  | nil => intro l a ha; simp at ha
  | cons b rest ih =>
    intro l a ha
    rw [insertAll, List.foldl_cons]
    rcases List.mem_cons.mp ha with rfl | h2
    · exact mem_insertAll_left rest _ a ((mem_insertVec l a a).mpr (Or.inr rfl))
    · exact ih _ a h2

theorem mem_insertAll_cases (h : List Vector) :
    ∀ (l : List Vector) (a : Vector), a ∈ insertAll l h → a ∈ l ∨ a ∈ h := by
  induction h with
  | nil => intro l a ha; exact Or.inl ha
  | cons b rest ih =>
    intro l a ha
    rw [insertAll, List.foldl_cons] at ha
    rcases ih _ a ha with h2 | h2
    · rcases (mem_insertVec l b a).mp h2 with h3 | rfl
      · exact Or.inl h3
      · exact Or.inr (List.mem_cons_self a rest)
    · exact Or.inr (List.mem_cons_of_mem b h2)

theorem insertAll_of_mem (h : List Vector) :
    ∀ (l : List Vector), (∀ b ∈ h, b ∈ l) → insertAll l h = l := by
  induction h with
  | nil => intro l _; rfl
  | cons b rest ih =>
    intro l hsub
    rw [insertAll, List.foldl_cons, insertVec_of_mem l b (hsub b (List.mem_cons_self b rest))]
    exact ih l fun a ha => hsub a (List.mem_cons_of_mem b ha)

/-- Completeness of the edge index: every ordered pair of distinct points of
the cloud appears in the distance class of its Manhattan distance. -/
def edgesComplete (s : Scan) : Prop :=
  ∀ v ∈ s.blips, ∀ w ∈ s.blips, v ≠ w → (v, w) ∈ edgesLookup s.edges ((w - v).abs)

/-- Soundness of the edge index: no distance class holds a pair whose points
are not both in the current point set. -/
def edgesSound (s : Scan) : Prop :=
  ∀ en ∈ s.edges, ∀ p ∈ en.2, p.1 ∈ s.blips ∧ p.2 ∈ s.blips

/-- The edge index exactly reflects the current point set. -/
def edgesExact (s : Scan) : Prop :=
  edgesComplete s ∧ edgesSound s

instance (s : Scan) : Decidable (edgesComplete s) := by
  unfold edgesComplete
  infer_instance

instance (s : Scan) : Decidable (edgesSound s) := by
  unfold edgesSound
  infer_instance

instance (s : Scan) : Decidable (edgesExact s) := by
  unfold edgesExact
  infer_instance

theorem edgesLookup_subset_entries (e : Edges) (d : Int) (q : Vector × Vector)
    (h : q ∈ edgesLookup e d) : ∃ en ∈ e, q ∈ en.2 := by
  induction e with
  | nil => simp [edgesLookup] at h
  | cons en rest ih =>
    rw [edgesLookup] at h
    split at h
    · exact ⟨en, List.mem_cons_self en rest, h⟩
    · obtain ⟨en2, h1, h2⟩ := ih h
      exact ⟨en2, List.mem_cons_of_mem en h1, h2⟩

theorem edgesInsert_entry_cases (e : Edges) (d : Int) (p : Vector × Vector) :
    ∀ en ∈ edgesInsert e d p, ∀ q ∈ en.2, (∃ en2 ∈ e, q ∈ en2.2) ∨ q = p := by
  induction e with
  | nil =>
    intro en hen q hq
    rw [edgesInsert] at hen
    simp at hen
    subst hen
    simp at hq
    exact Or.inr hq
  | cons en0 rest ih =>
    obtain ⟨d2, l⟩ := en0
    intro en hen q hq
    rw [edgesInsert] at hen
    split at hen
    · rcases List.mem_cons.mp hen with rfl | h2
      · rcases (mem_pairInsert l p q).mp hq with h3 | rfl
        · exact Or.inl ⟨(d2, l), List.mem_cons_self _ _, h3⟩
        · exact Or.inr rfl
      · exact Or.inl ⟨en, List.mem_cons_of_mem _ h2, hq⟩
    · rcases List.mem_cons.mp hen with rfl | h2
      · exact Or.inl ⟨(d2, l), List.mem_cons_self _ _, hq⟩
      · rcases ih en h2 q hq with ⟨en2, h3, h4⟩ | h3
        · exact Or.inl ⟨en2, List.mem_cons_of_mem _ h3, h4⟩
        · exact Or.inr h3

theorem refreshFold_entry_cases (ps : List (Vector × Vector)) :
    ∀ (e : Edges), ∀ en ∈ refreshFold e ps, ∀ q ∈ en.2,
      (∃ en2 ∈ e, q ∈ en2.2) ∨ q ∈ ps := by
  induction ps with
  | nil => intro e en hen q hq; exact Or.inl ⟨en, hen, hq⟩
  | cons p rest ih =>
    intro e en hen q hq
    rw [refreshFold, List.foldl_cons] at hen
    rcases ih _ en hen q hq with h2 | h2
    · obtain ⟨en2, h3, h4⟩ := h2
      rcases edgesInsert_entry_cases e _ p en2 h3 q h4 with h5 | rfl
      · exact Or.inl h5
      · exact Or.inr (List.mem_cons_self _ _)
    · exact Or.inr (List.mem_cons_of_mem p h2)

theorem fromBlips_exact (ps : List Vector) : edgesExact (Scan.fromBlips ps) := by
  constructor
  · intro v hv w hw hne
    simp only [Scan.fromBlips, Scan.refresh_edges] at hv hw ⊢
    exact mem_refreshFold_self (orderedPairs ps) [] (v, w)
      ((mem_orderedPairs ps (v, w)).mpr ⟨hv, hw, hne⟩)
  · intro en hen q hq
    simp only [Scan.fromBlips, Scan.refresh_edges] at hen ⊢
    rcases refreshFold_entry_cases (orderedPairs ps) [] en hen q hq with h2 | h2
    · simp at h2
    · obtain ⟨h3, h4, _⟩ := (mem_orderedPairs ps q).mp h2
      exact ⟨h3, h4⟩

theorem merge_exact (s : Scan) (h : List Vector) (hx : edgesExact s) :
    edgesExact (Scan.merge s h) := by
  constructor
  · intro v hv w hw hne
    simp only [Scan.merge, Scan.refresh_edges] at hv hw ⊢
    exact mem_refreshFold_self _ _ (v, w)
      ((mem_orderedPairs _ (v, w)).mpr ⟨hv, hw, hne⟩)
  · intro en hen q hq
    simp only [Scan.merge, Scan.refresh_edges] at hen ⊢
    rcases refreshFold_entry_cases _ _ en hen q hq with ⟨en2, h2, h3⟩ | h2
    · obtain ⟨h4, h5⟩ := hx.2 en2 h2 q h3
      exact ⟨mem_insertAll_left h _ q.1 h4, mem_insertAll_left h _ q.2 h5⟩
    · obtain ⟨h3, h4, _⟩ := (mem_orderedPairs _ q).mp h2
      exact ⟨h3, h4⟩

/-- C5: after construction (`Scan::from`) and after every merge, the edge
index exactly reflects the current point set: every ordered pair of distinct
points is recorded under its Manhattan distance, and no distance class holds
a pair whose points are not both in the current point set. -/
theorem claim_c5 :
    (∀ ps : List Vector, edgesExact (Scan.fromBlips ps)) ∧
    (∀ (s : Scan) (h : List Vector), edgesExact s → edgesExact (Scan.merge s h)) :=
  ⟨fromBlips_exact, merge_exact⟩

/-- C9: merging points that are already in the cloud, index refresh
included, changes nothing: neither the point set nor the edge index. -/
theorem claim_c9 (s : Scan) (h : List Vector)
    (hsub : ∀ b ∈ h, b ∈ s.blips) (hc : edgesComplete s) :
    Scan.merge s h = s := by
  unfold Scan.merge Scan.refresh_edges
  simp only [insertAll_of_mem h s.blips hsub]
  rw [refreshFold_of_complete (orderedPairs s.blips) s.edges
    (fun p hp => hc p.1 ((mem_orderedPairs _ p).mp hp).1 p.2
      ((mem_orderedPairs _ p).mp hp).2.1 ((mem_orderedPairs _ p).mp hp).2.2)]

/-- A small concrete cloud used by witnesses. -/
def scanB : Scan :=
  Scan.fromBlips [⟨0, 0, 0⟩, ⟨1, 0, 0⟩, ⟨0, 2, 0⟩]

theorem claim_c9_witness :
    Scan.merge scanB [Vector.mk 1 0 0, Vector.mk 0 0 0] = scanB :=
  claim_c9 scanB [⟨1, 0, 0⟩, ⟨0, 0, 0⟩] (by decide) (by decide)

theorem searchCombos_mem
    (f : Int × (Vector × Vector) × (Vector × Vector) → Option Transformation) :
    ∀ (l : List (Int × (Vector × Vector) × (Vector × Vector))) (T : Transformation),
      searchCombos f l = some T → ∃ c ∈ l, f c = some T := by
  intro l
  induction l with
  | nil => intro T h; simp [searchCombos] at h
  | cons c rest ih =>
    intro T h
    rw [searchCombos] at h
    cases hf : f c with
    | some T2 =>
      rw [hf] at h
      exact ⟨c, List.mem_cons_self _ _, hf.trans h⟩
    | none =>
      rw [hf] at h
      obtain ⟨c2, h1, h2⟩ := ih T h
      exact ⟨c2, List.mem_cons_of_mem c h1, h2⟩

theorem mem_alignCandidates (self them : Scan)
    (c : Int × (Vector × Vector) × (Vector × Vector))
    (h : c ∈ alignCandidates self them) :
    c.2.1 ∈ edgesLookup self.edges c.1 ∧ c.2.2 ∈ edgesLookup them.edges c.1 := by
  unfold alignCandidates at h
  simp only [List.mem_flatMap, List.mem_map] at h
  obtain ⟨d, hd, p, hp, q, hq, rfl⟩ := h
  exact ⟨hp, hq⟩

theorem tryCombo_some (selfBlips themBlips : List Vector)
    (c : Int × (Vector × Vector) × (Vector × Vector)) (a : Matrix) (t : Vector)
    (h : tryCombo selfBlips themBlips c = some ⟨a, t⟩) :
    Vector.rotates_into (c.2.2.2 - c.2.2.1) (c.2.1.2 - c.2.1.1) = some a ∧
    t = c.2.1.1 - a * c.2.2.1 ∧
    MINIMUM_OVERLAP_FOR_ALIGNMENT ≤
      (selfBlips.filter fun b =>
        decide (b ∈ themBlips.map fun w => a * w + t)).length := by
  unfold tryCombo at h
  dsimp only [] at h
  cases hrot : Vector.rotates_into (c.2.2.2 - c.2.2.1) (c.2.1.2 - c.2.1.1) with
  | none => rw [hrot] at h; simp at h
  | some a0 =>
    rw [hrot] at h
    dsimp only [] at h
    split at h
    · rw [Option.some.injEq, Transformation.mk.injEq] at h
      obtain ⟨rfl, rfl⟩ := h
      refine ⟨rfl, rfl, ?_⟩
      assumption
    · simp at h

theorem align_some (self them s2 t2 : Scan) (T : Transformation)
    (h : Scan.align self them = (s2, t2, some T)) :
    ∃ c ∈ alignCandidates self them, tryCombo self.blips them.blips c = some T := by
  unfold Scan.align at h
  cases hf : searchCombos (tryCombo self.blips them.blips) (alignCandidates self them) with
  | none => rw [hf] at h; simp at h
  | some T2 =>
    rw [hf] at h
    have h3 : some T2 = some T := congrArg (fun x => x.2.2) h
    rw [Option.some.injEq] at h3
    subst h3
    exact searchCombos_mem _ _ T2 hf

/-- C2: whenever `align` answers `Transformation(R, t)`, `R` is one of the
24 enumerated rotations, `t = v1 - R * w1` for a reference point `v1` and a
candidate point `w1` taken from matched edge pairs, and at least
`MINIMUM_OVERLAP_FOR_ALIGNMENT` (12) distinct points of the pre-merge
reference cloud are images `R * w + t` of candidate points. -/
theorem claim_c2 (self them s2 t2 : Scan) (a : Matrix) (t : Vector)
    (hnd : self.blips.Nodup) (hs : edgesSound self) (ht : edgesSound them)
    (halign : Scan.align self them = (s2, t2, some ⟨a, t⟩)) :
    a ∈ rotations ∧
    (∃ v1 ∈ self.blips, ∃ w1 ∈ them.blips, t = v1 - a * w1) ∧
    (∃ S : Finset Vector, MINIMUM_OVERLAP_FOR_ALIGNMENT ≤ S.card ∧
      ∀ b ∈ S, b ∈ self.blips ∧ ∃ w ∈ them.blips, a * w + t = b) := by
  obtain ⟨c, hc, htc⟩ := align_some self them s2 t2 ⟨a, t⟩ halign
  obtain ⟨hrot, hteq, hcount⟩ := tryCombo_some self.blips them.blips c a t htc
  obtain ⟨hmem, -⟩ := rotates_into_spec _ _ a hrot
  refine ⟨hmem, ?_, ?_⟩
  · obtain ⟨hp, hq⟩ := mem_alignCandidates self them c hc
    obtain ⟨en1, hen1, hin1⟩ := edgesLookup_subset_entries _ _ _ hp
    obtain ⟨en2, hen2, hin2⟩ := edgesLookup_subset_entries _ _ _ hq
    exact ⟨c.2.1.1, (hs en1 hen1 _ hin1).1, c.2.2.1, (ht en2 hen2 _ hin2).1, hteq⟩
  · refine ⟨(self.blips.filter fun b =>
      decide (b ∈ them.blips.map fun w => a * w + t)).toFinset, ?_, ?_⟩
    · rw [List.toFinset_card_of_nodup (hnd.filter _)]
      exact hcount
    · intro b hb
      rw [List.mem_toFinset, List.mem_filter] at hb
      obtain ⟨hb1, hb2⟩ := hb
      have hb3 := of_decide_eq_true hb2
      obtain ⟨w, hw, hwb⟩ := List.mem_map.mp hb3
      exact ⟨hb1, w, hw, hwb⟩

/-- A 12-point cloud along a symmetry-free direction; aligning it with
itself succeeds with the identity rotation and zero translation. -/
def cloudW : Scan :=
  Scan.fromBlips [⟨0, 0, 0⟩, ⟨1, 2, 3⟩, ⟨2, 4, 6⟩, ⟨3, 6, 9⟩, ⟨4, 8, 12⟩, ⟨5, 10, 15⟩,
    ⟨6, 12, 18⟩, ⟨7, 14, 21⟩, ⟨8, 16, 24⟩, ⟨9, 18, 27⟩, ⟨10, 20, 30⟩, ⟨11, 22, 33⟩]

set_option maxHeartbeats 1000000 in
theorem claim_c2_witness :
    Matrix.default ∈ rotations ∧
    (∃ v1 ∈ cloudW.blips, ∃ w1 ∈ cloudW.blips,
      Vector.mk 0 0 0 = v1 - Matrix.default * w1) ∧
    (∃ S : Finset Vector, MINIMUM_OVERLAP_FOR_ALIGNMENT ≤ S.card ∧
      ∀ b ∈ S, b ∈ cloudW.blips ∧
        ∃ w ∈ cloudW.blips, Matrix.default * w + Vector.mk 0 0 0 = b) := by
  obtain ⟨s2, t2, h⟩ : ∃ s2 t2,
      Scan.align cloudW cloudW = (s2, t2, some ⟨Matrix.default, ⟨0, 0, 0⟩⟩) :=
    ⟨_, _, rfl⟩
  exact claim_c2 cloudW cloudW s2 t2 Matrix.default ⟨0, 0, 0⟩
    (by decide) (by decide) (by decide) h

/-- C6 as the code implements it: the shared distances `align` iterates are
sorted ascending by the size of the distance class in the REFERENCE cloud
(`self.edges`, main.rs lines 67-68), not in the candidate cloud. -/
theorem claim_c6_amended (self them : Scan) :
    List.Sorted
      (fun d1 d2 => (edgesLookup self.edges d1).length ≤ (edgesLookup self.edges d2).length)
      (sharedSorted self them) := by
  unfold sharedSorted
  haveI : IsTotal Int
      (fun d1 d2 => (edgesLookup self.edges d1).length ≤ (edgesLookup self.edges d2).length) :=
    ⟨fun a b => Nat.le_total _ _⟩
  haveI : IsTrans Int
      (fun d1 d2 => (edgesLookup self.edges d1).length ≤ (edgesLookup self.edges d2).length) :=
    ⟨fun a b c h1 h2 => Nat.le_trans h1 h2⟩
  exact List.sorted_insertionSort _ _

/-- A reference cloud whose distance 4 is realized by more pairs than its
distance 8. -/
def refC6 : Scan :=
  Scan.fromBlips [⟨0, 0, 0⟩, ⟨4, 0, 0⟩, ⟨8, 0, 0⟩]

/-- A candidate cloud whose distance 8 is realized by more pairs than its
distance 4: the opposite order of `refC6`. -/
def candC6 : Scan :=
  Scan.fromBlips [⟨0, 0, 0⟩, ⟨8, 0, 0⟩, ⟨16, 0, 0⟩, ⟨20, 0, 0⟩]

/-- C6 counterexample: the order `align` examines shared distances in is NOT
ascending by the number of realizing pairs in the candidate cloud — here the
reference-count order is strict, so every execution of the source examines
distance 8 (4 candidate pairs) before distance 4 (2 candidate pairs). -/
theorem claim_c6_counterexample :
    ¬ List.Sorted
      (fun d1 d2 => (edgesLookup candC6.edges d1).length ≤ (edgesLookup candC6.edges d2).length)
      (sharedSorted refC6 candC6) := by decide

theorem align_blips_mono (self them : Scan) (b : Vector) (hb : b ∈ self.blips) :
    b ∈ (Scan.align self them).1.blips := by
  unfold Scan.align
  cases hf : searchCombos (tryCombo self.blips them.blips) (alignCandidates self them) with
  | none => exact hb
  | some T => exact mem_insertAll_left _ _ b hb

theorem align_fail_eq (self them : Scan)
    (h : (Scan.align self them).2.2 = none) :
    Scan.align self them = (self, them, none) := by
  unfold Scan.align at h ⊢
  cases hf : searchCombos (tryCombo self.blips them.blips) (alignCandidates self them) with
  | none => rfl
  | some T => rw [hf] at h; simp at h

theorem align_succ (self them s2 t2 : Scan) (T : Transformation)
    (h : Scan.align self them = (s2, t2, some T)) :
    t2.transformation = some T ∧ ∀ w ∈ them.blips, T.m * w + T.t ∈ s2.blips := by
  unfold Scan.align at h
  cases hf : searchCombos (tryCombo self.blips them.blips) (alignCandidates self them) with
  | none => rw [hf] at h; simp at h
  | some T2 =>
    rw [hf] at h
    rw [Prod.mk.injEq, Prod.mk.injEq, Option.some.injEq] at h
    obtain ⟨h1, h2, rfl⟩ := h
    subst h1
    subst h2
    refine ⟨rfl, fun w hw => ?_⟩
    exact mem_insertAll_right _ _ _ (List.mem_map.mpr ⟨w, hw, rfl⟩)

theorem passStep_blips_mono :
    ∀ (scans : List Scan) (core : Scan) (sc : List Vector) (b : Vector),
      b ∈ core.blips → b ∈ (passStep core scans sc).1.blips := by
  intro scans
  induction scans with
  | nil => intro core sc b hb; exact hb
  | cons s rest ih =>
    intro core sc b hb
    simp only [passStep]
    split
    · exact ih _ _ b (align_blips_mono core s b hb)
    · exact ih _ _ b hb

theorem passStep_length :
    ∀ (scans : List Scan) (core : Scan) (sc : List Vector),
      (passStep core scans sc).2.1.length = scans.length := by
  intro scans
  induction scans with
  | nil => intro core sc; rfl
  | cons s rest ih =>
    intro core sc
    simp only [passStep]
    split
    · simp only [List.length_cons, ih]
    · simp only [List.length_cons, ih]

theorem passStep_skip :
    ∀ (scans : List Scan) (core : Scan) (sc : List Vector),
      List.Forall₂ (fun s s2 => s.transformation.isSome = true → s2 = s)
        scans (passStep core scans sc).2.1 := by
  intro scans
  induction scans with
  | nil => intro core sc; exact List.Forall₂.nil
  | cons s rest ih =>
    intro core sc
    simp only [passStep]
    split
    · rename_i hcond
      refine List.Forall₂.cons ?_ (ih _ _)
      intro hsome
      rw [Option.isNone_iff_eq_none] at hcond
      rw [hcond] at hsome
      simp at hsome
    · exact List.Forall₂.cons (fun _ => rfl) (ih _ _)

theorem runLoop_blips_mono :
    ∀ (fuel : Nat) (core : Scan) (scans : List Scan) (sc : List Vector)
      (c2 : Scan) (s2 : List Scan) (v2 : List Vector),
      runLoop fuel core scans sc = some (c2, s2, v2) →
      ∀ b ∈ core.blips, b ∈ c2.blips := by
  intro fuel
  induction fuel with
  | zero => intro core scans sc c2 s2 v2 h; simp [runLoop] at h
  | succ n ih =>
    intro core scans sc c2 s2 v2 h b hb
    rw [runLoop] at h
    split at h
    · rw [Option.some.injEq, Prod.mk.injEq, Prod.mk.injEq] at h
      obtain ⟨h1, -, -⟩ := h
      rw [← h1]
      exact passStep_blips_mono scans core sc b hb
    · exact ih _ _ _ _ _ _ h b (passStep_blips_mono scans core sc b hb)

/-- C4: a pass never shrinks the reference cloud (nor does a whole run);
scans that already carry a transformation pass through a pass untouched
(never re-attempted); and the moment an alignment succeeds the candidate's
transformation is recorded and all its mapped points are merged into the
reference point set. -/
theorem claim_c4 (core : Scan) (scans : List Scan) (sc : List Vector) :
    (∀ b ∈ core.blips, b ∈ (passStep core scans sc).1.blips) ∧
    (passStep core scans sc).2.1.length = scans.length ∧
    List.Forall₂ (fun s s2 => s.transformation.isSome = true → s2 = s)
      scans (passStep core scans sc).2.1 ∧
    (∀ (them s2 t2 : Scan) (T : Transformation),
      Scan.align core them = (s2, t2, some T) →
      t2.transformation = some T ∧ ∀ w ∈ them.blips, T.m * w + T.t ∈ s2.blips) ∧
    (∀ (fuel : Nat) (c2 : Scan) (s2 : List Scan) (v2 : List Vector),
      runLoop fuel core scans sc = some (c2, s2, v2) → ∀ b ∈ core.blips, b ∈ c2.blips) :=
  ⟨fun b hb => passStep_blips_mono scans core sc b hb,
   passStep_length scans core sc,
   passStep_skip scans core sc,
   fun them s2 t2 T h => align_succ core them s2 t2 T h,
   fun fuel c2 s2 v2 h b hb => runLoop_blips_mono fuel core scans sc c2 s2 v2 h b hb⟩

theorem passStep_stall :
    ∀ (scans : List Scan) (core : Scan) (sc : List Vector),
      (∀ s ∈ scans, s.transformation = none → (Scan.align core s).2.2 = none) →
      passStep core scans sc =
        (core, scans, sc, scans.all fun s => s.transformation.isSome) := by
  intro scans
  induction scans with
  | nil => intro core sc _; rfl
  | cons s rest ih =>
    intro core sc hall
    by_cases hs : s.transformation.isNone = true
    · have hnone : s.transformation = none := Option.isNone_iff_eq_none.mp hs
      have heq := align_fail_eq core s (hall s (List.mem_cons_self _ _) hnone)
      simp only [passStep, if_pos hs, heq]
      rw [ih core sc fun s2 hs2 => hall s2 (List.mem_cons_of_mem s hs2)]
      simp [List.all_cons, hnone]
    · simp only [passStep, if_neg hs]
      rw [ih core sc fun s2 hs2 => hall s2 (List.mem_cons_of_mem s hs2)]
      have hsome : s.transformation.isSome = true := by
        cases h2 : s.transformation with
        | none => rw [h2] at hs; simp at hs
        | some T => rfl
      simp [List.all_cons, hsome]

theorem pending_all_false (scans : List Scan)
    (hpend : ∃ s ∈ scans, s.transformation = none) :
    (scans.all fun s => s.transformation.isSome) = false := by
  obtain ⟨s, hs1, hs2⟩ := hpend
  rw [Bool.eq_false_iff]
  intro htrue
  rw [List.all_eq_true] at htrue
  have := htrue s hs1
  rw [hs2] at this
  simp at this

theorem runLoop_stall (core : Scan) (scans : List Scan) (sc : List Vector)
    (hall : ∀ s ∈ scans, s.transformation = none → (Scan.align core s).2.2 = none)
    (hpend : ∃ s ∈ scans, s.transformation = none) :
    ∀ fuel, runLoop fuel core scans sc = none := by
  have hpass := passStep_stall scans core sc hall
  have hfalse := pending_all_false scans hpend
  rw [hfalse] at hpass
  intro fuel
  induction fuel with
  | zero => rfl
  | succ n ih =>
    rw [runLoop]
    simp only [hpass]
    exact ih

/-- C1 as the code implements it: when a full pass over the still-pending
clouds produces zero successful alignments while pending clouds remain, the
controller does NOT transition to Done — the pass leaves the core, the scan
list and the scanner list unchanged with the done flag false (it is cleared
for every pending scan regardless of outcome, main.rs lines 141-142), so the
`while !done` loop reruns an identical pass forever and `main_or_error`
never terminates on such input. -/
theorem claim_c1_amended (core : Scan) (scans : List Scan) (sc : List Vector) (fuel : Nat)
    (hall : ∀ s ∈ scans, s.transformation = none → (Scan.align core s).2.2 = none)
    (hpend : ∃ s ∈ scans, s.transformation = none) :
    passStep core scans sc = (core, scans, sc, false) ∧
    runLoop fuel core scans sc = none := by
  constructor
  · rw [passStep_stall scans core sc hall, pending_all_false scans hpend]
  · exact runLoop_stall core scans sc hall hpend fuel

/-- A one-point reference cloud: its edge index is empty, so nothing can
reach the 12-point overlap. -/
def stallCore : Scan :=
  Scan.fromBlips [⟨0, 0, 0⟩]

/-- A one-point pending cloud sharing no distances with `stallCore`. -/
def stallScan : Scan :=
  Scan.fromBlips [⟨100, 0, 0⟩]

/-- C1 counterexample: a stalled pass (pending cloud remains, zero
alignments) after which the done flag is false and the state unchanged — the
controller does not transition to Done, contradicting the claim. -/
theorem claim_c1_counterexample :
    stallScan.transformation = none ∧
    (Scan.align stallCore stallScan).2.2 = none ∧
    passStep stallCore [stallScan] [] = (stallCore, [stallScan], [], false) := by
  exact ⟨rfl, by decide, by decide⟩

theorem claim_c1_witness :
    passStep stallCore [stallScan] [] = (stallCore, [stallScan], [], false) ∧
    runLoop 5 stallCore [stallScan] [] = none :=
  claim_c1_amended stallCore [stallScan] [] 5 (by decide) (by decide)

/-- ASCII whitespace for `str::trim` as this input format exercises it. -/
def isSpaceChar (c : Char) : Bool :=
  c = ' ' || c = '\t' || c = '\n' || c = '\r'

/-- `str::trim` (main.rs line 101): drop whitespace from both ends. -/
def trimChars (l : List Char) : List Char :=
  ((l.dropWhile isSpaceChar).reverse.dropWhile isSpaceChar).reverse

/-- `str::split(',')` (main.rs line 111). -/
def splitComma : List Char → List (List Char)
  | [] => [[]]
  | c :: rest =>
    let r := splitComma rest
    if c = ',' then [] :: r
    else (c :: r.headD []) :: r.tail

/-- Digit accumulation of `isize::from_str`. -/
def parseNatAux : List Char → Nat → Option Nat
  | [], acc => some acc
  | c :: rest, acc =>
    if '0' ≤ c ∧ c ≤ '9' then parseNatAux rest (acc * 10 + (c.toNat - '0'.toNat))
    else none

/-- `str::parse::<isize>` (`t.parse()`, main.rs line 111): an optional sign
followed by at least one digit. -/
def parseIntChars : List Char → Option Int
  | '-' :: rest =>
    if rest = [] then none else (parseNatAux rest 0).map fun n => -(n : Int)
  | '+' :: rest =>
    if rest = [] then none else (parseNatAux rest 0).map fun n => (n : Int)
  | l => if l = [] then none else (parseNatAux l 0).map fun n => (n : Int)

/-- `Scan::parse` (main.rs lines 94-121) over the input's lines: `none`
models a panic (the out-of-bounds indexing of main.rs line 113 when a record
has fewer than three fields), `some (Except.error e)` an early `Err` return,
`some (Except.ok scans)` success. -/
def parseLines : List String → List Vector → List Scan →
    Option (Except Error (List Scan))
  | [], blips, scans =>
    some (Except.ok (if blips.isEmpty then scans else scans ++ [Scan.fromBlips blips]))
  | line :: rest, blips, scans =>
    let l := trimChars line.data
    if l.isEmpty then parseLines rest blips scans
    else if l.take 3 = ['-', '-', '-'] then
      if blips.isEmpty then parseLines rest blips scans
      else parseLines rest [] (scans ++ [Scan.fromBlips blips])
    else
      match (splitComma l).mapM parseIntChars with
      | none => some (Except.error (Error.InvalidPoint (String.mk l)))
      | some ns =>
        match ns with
        | n1 :: n2 :: n3 :: _ => parseLines rest (insertVec blips ⟨n1, n2, n3⟩) scans
        | _ => none

/-- `Scan::parse` from the start. -/
def Scan.parse (lines : List String) : Option (Except Error (List Scan)) :=
  parseLines lines [] []

/-- The start of `main_or_error` (main.rs lines 129-135): parse, then take
the first cloud as the core (the `reverse`/`pop` pair), erroring on an empty
cloud list; CLI-argument and file-open failures are outside the model. -/
def setup (lines : List String) : Option (Except Error (Scan × List Scan)) :=
  match Scan.parse lines with
  | none => none
  | some (Except.error e) => some (Except.error e)
  | some (Except.ok scans) =>
    match scans with
    | [] => some (Except.error Error.EmptyInput)
    | core :: rest => some (Except.ok (core, rest.reverse))

/-- C7 (code bug): a coordinate record parsing as fewer than three integers
(here the line `1,2`) drives `blip[2]` (main.rs line 113) out of bounds, so
the program panics (modelled `none`) instead of surfacing an error value;
records with a non-integer field and the empty cloud list are surfaced as
`InvalidPoint` and `EmptyInput` just as the claim says. -/
theorem claim_c7_bug :
    Scan.parse ["--- scanner 0 ---", "1,2"] = none ∧
    Scan.parse ["--- scanner 0 ---", "1,2,x"] =
      some (Except.error (Error.InvalidPoint "1,2,x")) ∧
    setup [] = some (Except.error Error.EmptyInput) :=
  ⟨rfl, rfl, rfl⟩

end Day19

